import Mathlib

/-!
# Verification of the cg3lib incremental 3D convex hull

Shallow embedding of `cg3::convexHull` and its helpers
(`internal::complanar`, `internal::see`, `internal::insertTet`,
`internal::horizonEdgeList`, `internal::calculateP`,
`internal::deleteVisibleFaces`, `internal::insertNewFaces`)
from the repository source `convexhull.cpp`.

Modelling conventions:
* `double` coordinates and determinants are modelled by exact rationals;
  `std::numeric_limits<double>::epsilon()` is the rational `2 ^ (-52)`.
* The half-edge mesh (`Dcel`) and the conflict graph (`BipartiteGraph`)
  are external collaborators of the core and are modelled from the spec:
  the mesh as an arena of vertices / half-edges / faces addressed by
  stable indices (the spec's own recommended reimplementation of pointer
  identity), a deleted slot becoming `none`; the conflict graph as a
  bipartite graph between points and live face indices.
* `std::random_shuffle` and `rand()` are modelled by explicit parameters:
  a permutation describing the shuffle outcome and a stream of raw draws.
* Unbounded loops (`do … while`, `while`, the horizon walk) take fuel and
  return `none` when the fuel runs out or when the C++ would dereference
  an invalid pointer.
-/

set_option maxRecDepth 600000

/-- Exact rational arithmetic as unnormalized integer fractions.  (The
library type `ℚ` normalises through `Nat.gcd`, which does not reduce in
the kernel; this representation is kernel-computable.)  Every operation
below keeps the denominator positive, and comparisons cross-multiply. -/
structure Q where
  num : ℤ
  den : ℤ
deriving DecidableEq, Repr

instance (n : ℕ) : OfNat Q n := ⟨⟨(n : ℤ), 1⟩⟩

instance : Neg Q := ⟨fun a => ⟨-a.num, a.den⟩⟩

instance : Add Q := ⟨fun a b => ⟨a.num * b.den + b.num * a.den, a.den * b.den⟩⟩

instance : Sub Q := ⟨fun a b => ⟨a.num * b.den - b.num * a.den, a.den * b.den⟩⟩

instance : Mul Q := ⟨fun a b => ⟨a.num * b.num, a.den * b.den⟩⟩

/-- Value-level strict comparison (cross-multiplied). -/
def Q.blt (a b : Q) : Bool := decide (a.num * b.den < b.num * a.den)

/-- Value-level non-strict comparison (cross-multiplied). -/
def Q.ble (a b : Q) : Bool := decide (a.num * b.den ≤ b.num * a.den)

/-- Value-level equality (cross-multiplied). -/
def Q.beq (a b : Q) : Bool := decide (a.num * b.den = b.num * a.den)

/-- Three-dimensional point with exact rational coordinates (models `cg3::Pointd`). -/
structure Pt where
  x : Q
  y : Q
  z : Q
deriving DecidableEq, Repr

instance : Inhabited Pt := ⟨⟨0, 0, 0⟩⟩

/-- Modelled from the spec: the conflict graph keys U-nodes by `Pointd`
and the algorithm stores points in `std::set<Pointd>`, which requires a
strict total order on points; coordinate-lexicographic comparison. -/
def Pt.lt (p q : Pt) : Bool :=
  if Q.beq p.x q.x = false then Q.blt p.x q.x
  else if Q.beq p.y q.y = false then Q.blt p.y q.y
  else Q.blt p.z q.z

/-- Machine epsilon `std::numeric_limits<double>::epsilon()`, the rational `2 ^ (-52)`. -/
def eps : Q := ⟨1, 4503599627370496⟩

/-- Row-major 3×3 determinant. -/
def det3 (a b c d e f g h i : Q) : Q :=
  a * (e * i - f * h) - b * (d * i - f * g) + c * (d * h - e * g)

/-- The `internal::complanar` predicate: determinant of the 4×4 matrix whose rows are
`[xᵢ yᵢ zᵢ 1]`, expanded along the last column. -/
def complanar (p0 p1 p2 p3 : Pt) : Q :=
  -(det3 p1.x p1.y p1.z p2.x p2.y p2.z p3.x p3.y p3.z)
    + det3 p0.x p0.y p0.z p2.x p2.y p2.z p3.x p3.y p3.z
    - det3 p0.x p0.y p0.z p1.x p1.y p1.z p3.x p3.y p3.z
    + det3 p0.x p0.y p0.z p1.x p1.y p1.z p2.x p2.y p2.z

/-- Modelled from the spec: a mesh vertex record (coordinate plus one
incident half-edge), entity of the external half-edge mesh. -/
structure VertexRec where
  coord : Pt
  incident : Option ℕ
deriving DecidableEq, Repr

/-- Modelled from the spec: a half-edge record with from/to vertex,
twin, next, prev and incident face; unset references are `none`. -/
structure HalfEdgeRec where
  fromVertex : Option ℕ
  toVertex : Option ℕ
  twin : Option ℕ
  next : Option ℕ
  prev : Option ℕ
  face : Option ℕ
deriving DecidableEq, Repr

/-- Modelled from the spec: a face record carrying one outer half-edge. -/
structure FaceRec where
  outer : Option ℕ
deriving DecidableEq, Repr

/-- Modelled from the spec: the external half-edge mesh, as an arena of
stable indices; a deleted element leaves a `none` slot (the spec's §9
arena reimplementation of pointer identity). -/
structure Dcel where
  vertices : List (Option VertexRec)
  halfEdges : List (Option HalfEdgeRec)
  faces : List (Option FaceRec)
deriving DecidableEq, Repr

def Dcel.empty : Dcel := ⟨[], [], []⟩

def Dcel.vx (d : Dcel) (i : ℕ) : Option VertexRec := d.vertices.getD i none

def Dcel.he (d : Dcel) (i : ℕ) : Option HalfEdgeRec := d.halfEdges.getD i none

def Dcel.fc (d : Dcel) (i : ℕ) : Option FaceRec := d.faces.getD i none

def Dcel.addVertex (d : Dcel) (p : Pt) : Dcel × ℕ :=
  ({ d with vertices := d.vertices ++ [some ⟨p, none⟩] }, d.vertices.length)

def Dcel.addHalfEdge (d : Dcel) : Dcel × ℕ :=
  ({ d with halfEdges := d.halfEdges ++ [some ⟨none, none, none, none, none, none⟩] },
    d.halfEdges.length)

def Dcel.addFace (d : Dcel) : Dcel × ℕ :=
  ({ d with faces := d.faces ++ [some ⟨none⟩] }, d.faces.length)

def Dcel.deleteVertex (d : Dcel) (i : ℕ) : Dcel :=
  { d with vertices := d.vertices.set i none }

def Dcel.deleteHalfEdge (d : Dcel) (i : ℕ) : Dcel :=
  { d with halfEdges := d.halfEdges.set i none }

def Dcel.deleteFace (d : Dcel) (i : ℕ) : Dcel :=
  { d with faces := d.faces.set i none }

def Dcel.modHe (d : Dcel) (e : ℕ) (f : HalfEdgeRec → HalfEdgeRec) : Dcel :=
  match d.he e with
  | some r => { d with halfEdges := d.halfEdges.set e (some (f r)) }
  | none => d

def Dcel.setFromVertex (d : Dcel) (e v : ℕ) : Dcel :=
  d.modHe e fun r => { r with fromVertex := some v }

def Dcel.setToVertex (d : Dcel) (e v : ℕ) : Dcel :=
  d.modHe e fun r => { r with toVertex := some v }

def Dcel.setTwin (d : Dcel) (e t : ℕ) : Dcel :=
  d.modHe e fun r => { r with twin := some t }

def Dcel.setNext (d : Dcel) (e n : ℕ) : Dcel :=
  d.modHe e fun r => { r with next := some n }

def Dcel.setPrev (d : Dcel) (e p : ℕ) : Dcel :=
  d.modHe e fun r => { r with prev := some p }

def Dcel.setFace (d : Dcel) (e f : ℕ) : Dcel :=
  d.modHe e fun r => { r with face := some f }

def Dcel.setOuterHalfEdge (d : Dcel) (f e : ℕ) : Dcel :=
  match d.fc f with
  | some _ => { d with faces := d.faces.set f (some ⟨some e⟩) }
  | none => d

def Dcel.setIncidentHalfEdge (d : Dcel) (v e : ℕ) : Dcel :=
  match d.vx v with
  | some r => { d with vertices := d.vertices.set v (some { r with incident := some e }) }
  | none => d

def Dcel.getTwin (d : Dcel) (e : ℕ) : Option ℕ := (d.he e).bind (·.twin)

def Dcel.getNext (d : Dcel) (e : ℕ) : Option ℕ := (d.he e).bind (·.next)

def Dcel.getFace (d : Dcel) (e : ℕ) : Option ℕ := (d.he e).bind (·.face)

def Dcel.getFromVertex (d : Dcel) (e : ℕ) : Option ℕ := (d.he e).bind (·.fromVertex)

def Dcel.getToVertex (d : Dcel) (e : ℕ) : Option ℕ := (d.he e).bind (·.toVertex)

def Dcel.getOuterHalfEdge (d : Dcel) (f : ℕ) : Option ℕ := (d.fc f).bind (·.outer)

def Dcel.coordOf (d : Dcel) (v : ℕ) : Option Pt := (d.vx v).map (·.coord)

/-- Live face indices in ascending order (the `faceIterator`; ascending
arena index models ascending pointer order). -/
def Dcel.faceIndices (d : Dcel) : List ℕ :=
  (List.range d.faces.length).filter fun i => (d.fc i).isSome

/-- Live half-edge indices in ascending order. -/
def Dcel.halfEdgeIndices (d : Dcel) : List ℕ :=
  (List.range d.halfEdges.length).filter fun i => (d.he i).isSome

/-- Live vertex indices in ascending order (the `vertexIterator`). -/
def Dcel.vertexIndices (d : Dcel) : List ℕ :=
  (List.range d.vertices.length).filter fun i => (d.vx i).isSome

/-- Coordinates of the live vertices in iteration order. -/
def Dcel.vertexCoords (d : Dcel) : List Pt :=
  d.vertices.filterMap fun s => s.map (·.coord)

/-- Sorted-insertion into a duplicate-free ascending list of naturals
(models iteration order of a `std::set` of arena pointers). -/
def insertNat (n : ℕ) : List ℕ → List ℕ
  | [] => [n]
  | m :: rest =>
    if n < m then n :: m :: rest
    else if n = m then m :: rest
    else m :: insertNat n rest

/-- Sorted-insertion into a duplicate-free lexicographically ascending
list of points (models iteration order of `std::set<Pointd>`). -/
def insertPt (p : Pt) : List Pt → List Pt
  | [] => [p]
  | q :: rest =>
    if Pt.lt p q then p :: q :: rest
    else if p = q then q :: rest
    else q :: insertPt p rest

/-- Modelled from the spec: the bipartite conflict graph linking
unprocessed points (U-nodes) to live hull faces (V-nodes); an arc is a
(point, face) pair.  Node lists are kept as sorted sets. -/
structure BipartiteGraph where
  uNodes : List Pt
  vNodes : List ℕ
  arcs : List (Pt × ℕ)
deriving DecidableEq, Repr

def BipartiteGraph.empty : BipartiteGraph := ⟨[], [], []⟩

def BipartiteGraph.addUNode (g : BipartiteGraph) (p : Pt) : BipartiteGraph :=
  { g with uNodes := insertPt p g.uNodes }

def BipartiteGraph.addVNode (g : BipartiteGraph) (f : ℕ) : BipartiteGraph :=
  { g with vNodes := insertNat f g.vNodes }

/-- Modelled from the spec: arcs exist only between a live U-node and a
live V-node, so `addArc` on a missing node is a no-op. -/
def BipartiteGraph.addArc (g : BipartiteGraph) (p : Pt) (f : ℕ) : BipartiteGraph :=
  if p ∈ g.uNodes ∧ f ∈ g.vNodes ∧ (p, f) ∉ g.arcs then
    { g with arcs := g.arcs ++ [(p, f)] }
  else g

def BipartiteGraph.deleteUNode (g : BipartiteGraph) (p : Pt) : BipartiteGraph :=
  { g with uNodes := g.uNodes.filter (· ≠ p), arcs := g.arcs.filter (·.1 ≠ p) }

def BipartiteGraph.deleteVNode (g : BipartiteGraph) (f : ℕ) : BipartiteGraph :=
  { g with vNodes := g.vNodes.filter (· ≠ f), arcs := g.arcs.filter (·.2 ≠ f) }

def BipartiteGraph.sizeU (g : BipartiteGraph) : ℕ := g.uNodes.length

def BipartiteGraph.adjacentUNodeIterator (g : BipartiteGraph) (p : Pt) : List ℕ :=
  g.arcs.filterMap fun a => if a.1 = p then some a.2 else none

def BipartiteGraph.adjacentVNodeIterator (g : BipartiteGraph) (f : ℕ) : List Pt :=
  g.arcs.filterMap fun a => if a.2 = f then some a.1 else none

def BipartiteGraph.sizeAdjacencesUNode (g : BipartiteGraph) (p : Pt) : ℕ :=
  (g.adjacentUNodeIterator p).length

/-- Source `internal::insertTet`: builds the initial tetrahedron (4 vertices,
12 half-edges, 4 faces) with the source's exact wiring.  The final
`updateFaceNormals` / `updateVertexNormals` calls are out-of-scope
side effects of the external mesh and are not modelled. -/
def insertTet (d : Dcel) (p0 p1 p2 p3 : Pt) : Dcel :=
  let (d, v0) := d.addVertex p0
  let (d, v1) := d.addVertex p1
  let (d, v2) := d.addVertex p2
  let (d, v3) := d.addVertex p3
  let (d, e01) := d.addHalfEdge
  let d := (d.setFromVertex e01 v0).setToVertex e01 v1
  let (d, e12) := d.addHalfEdge
  let d := (d.setFromVertex e12 v1).setToVertex e12 v2
  let (d, e20) := d.addHalfEdge
  let d := (d.setFromVertex e20 v2).setToVertex e20 v0
  let (d, e10) := d.addHalfEdge
  let d := (d.setFromVertex e10 v1).setToVertex e10 v0
  let (d, e03) := d.addHalfEdge
  let d := (d.setFromVertex e03 v0).setToVertex e03 v3
  let (d, e31) := d.addHalfEdge
  let d := (d.setFromVertex e31 v3).setToVertex e31 v1
  let (d, e23) := d.addHalfEdge
  let d := (d.setFromVertex e23 v2).setToVertex e23 v3
  let (d, e30) := d.addHalfEdge
  let d := (d.setFromVertex e30 v3).setToVertex e30 v0
  let (d, e02) := d.addHalfEdge
  let d := (d.setFromVertex e02 v0).setToVertex e02 v2
  let (d, e21) := d.addHalfEdge
  let d := (d.setFromVertex e21 v2).setToVertex e21 v1
  let (d, e13) := d.addHalfEdge
  let d := (d.setFromVertex e13 v1).setToVertex e13 v3
  let (d, e32) := d.addHalfEdge
  let d := (d.setFromVertex e32 v3).setToVertex e32 v2
  let (d, f0) := d.addFace
  let d := d.setOuterHalfEdge f0 e01
  let (d, f1) := d.addFace
  let d := d.setOuterHalfEdge f1 e10
  let (d, f2) := d.addFace
  let d := d.setOuterHalfEdge f2 e23
  let (d, f3) := d.addFace
  let d := d.setOuterHalfEdge f3 e21
  let d := (d.setIncidentHalfEdge v0 e01).setIncidentHalfEdge v1 e10
  let d := (d.setIncidentHalfEdge v2 e23).setIncidentHalfEdge v3 e32
  let d := (((d.setTwin e01 e10).setFace e01 f0).setNext e01 e12).setPrev e01 e20
  let d := (((d.setTwin e12 e21).setFace e12 f0).setNext e12 e20).setPrev e12 e01
  let d := (((d.setTwin e20 e02).setFace e20 f0).setNext e20 e01).setPrev e20 e12
  let d := (((d.setTwin e10 e01).setFace e10 f1).setNext e10 e03).setPrev e10 e31
  let d := (((d.setTwin e03 e30).setFace e03 f1).setNext e03 e31).setPrev e03 e10
  let d := (((d.setTwin e31 e13).setFace e31 f1).setNext e31 e10).setPrev e31 e03
  let d := (((d.setTwin e23 e32).setFace e23 f2).setNext e23 e30).setPrev e23 e02
  let d := (((d.setTwin e30 e03).setFace e30 f2).setNext e30 e02).setPrev e30 e23
  let d := (((d.setTwin e02 e20).setFace e02 f2).setNext e02 e23).setPrev e02 e30
  let d := (((d.setTwin e21 e12).setFace e21 f3).setNext e21 e13).setPrev e21 e32
  let d := (((d.setTwin e13 e31).setFace e13 f3).setNext e13 e32).setPrev e13 e21
  let d := (((d.setTwin e32 e23).setFace e32 f3).setNext e32 e21).setPrev e32 e13
  d

/-- The three half-edges of a (triangular) face: outer half-edge, its
next, and the next of that (the face's incident half-edge iteration). -/
def faceHalfEdges (d : Dcel) (f : ℕ) : Option (ℕ × ℕ × ℕ) := do
  let e1 ← d.getOuterHalfEdge f
  let e2 ← d.getNext e1
  let e3 ← d.getNext e2
  pure (e1, e2, e3)

/-- The first three incident vertices of a face in stored winding order
(the face's incident vertex iteration used by `internal::see`). -/
def faceVerts (d : Dcel) (f : ℕ) : Option (Pt × Pt × Pt) := do
  let (e1, e2, e3) ← faceHalfEdges d f
  let v1 ← d.getFromVertex e1
  let v2 ← d.getFromVertex e2
  let v3 ← d.getFromVertex e3
  let q1 ← d.coordOf v1
  let q2 ← d.coordOf v2
  let q3 ← d.coordOf v3
  pure (q1, q2, q3)

/-- Source `internal::see`: the visibility test.  The point sees the face
(return `true`) unless the orientation determinant of the face's first
three incident vertices with the point exceeds epsilon. -/
def see (d : Dcel) (f : ℕ) (p : Pt) : Option Bool := do
  let (q1, q2, q3) ← faceVerts d f
  pure (!(Q.blt eps (complanar q1 q2 q3 p)))

/-- The shared step of the boundary search and the horizon walk: the
twin of the half-edge, and whether the twin's incident face is seen by
the point. -/
def walkProbe (d : Dcel) (p : Pt) (e0 : ℕ) : Option (ℕ × Bool) := do
  let e1 ← d.getTwin e0
  let af ← d.getFace e1
  let s ← see d af p
  pure (e1, s)

/-- Whether a half-edge lies on a visible face's border: its twin's
incident face is not seen by the point. -/
def edgeIsBoundary (d : Dcel) (p : Pt) (e : ℕ) : Bool :=
  match walkProbe d p e with
  | some (_, false) => true
  | _ => false

/-- Inner loop of the boundary-face search: first half-edge of the face
whose twin's face is not visible. -/
def boundaryEdgeOfFace (d : Dcel) (p : Pt) (f : ℕ) : Option ℕ :=
  match faceHalfEdges d f with
  | some (e1, e2, e3) => [e1, e2, e3].find? (edgeIsBoundary d p)
  | none => none

/-- The boundary-face search loop of `internal::horizonEdgeList`.
Returning `none` corresponds to the `assert(fid != end || finded)`
firing after the last visible face was scanned without success. -/
def findBoundary (d : Dcel) (p : Pt) : List ℕ → Option ℕ
  | [] => none
  | f :: rest =>
    match boundaryEdgeOfFace d p f with
    | some e => some e
    | none => findBoundary d p rest

/-- The do-while walk of `internal::horizonEdgeList`: records the twin
of the current half-edge when the adjacent face is invisible, otherwise
crosses into the adjacent visible face; stops on returning to the first
boundary edge.  `none` = fuel exhausted or invalid dereference. -/
def horizonWalk (d : Dcel) (p : Pt) (first : ℕ) :
    ℕ → ℕ → List ℕ → List ℕ → Option (List ℕ × List ℕ)
  | 0, _, _, _ => none
  | fuel + 1, e0, horizon, hv =>
    match walkProbe d p e0 with
    | none => none
    | some (e1, true) =>
      match d.getNext e1 with
      | some e0' =>
        if e0' = first then some (horizon, hv)
        else horizonWalk d p first fuel e0' horizon hv
      | none => none
    | some (e1, false) =>
      match d.getFromVertex e0, d.getNext e0 with
      | some fv, some e0' =>
        if e0' = first then some (horizon ++ [e1], insertNat fv hv)
        else horizonWalk d p first fuel e0' (horizon ++ [e1]) (insertNat fv hv)
      | _, _ => none

/-- Source `internal::horizonEdgeList`: boundary-face search, then the walk
along the visible region's border; returns the ordered horizon
half-edges and the set of horizon vertices. -/
def horizonEdgeList (d : Dcel) (visibleFaces : List ℕ) (p : Pt) (fuel : ℕ) :
    Option (List ℕ × List ℕ) := do
  let e0 ← findBoundary d p visibleFaces
  let e1 ← d.getTwin e0
  let fv ← d.getFromVertex e0
  let e0' ← d.getNext e0
  horizonWalk d p e0 fuel e0' [e1] [fv]

/-- Source `internal::calculateP`: for each horizon half-edge, the sorted union
of the points conflicting with its two adjacent faces. -/
def calculateP (d : Dcel) (cg : BipartiteGraph) : List ℕ → Option (List (List Pt))
  | [] => some []
  | he0 :: rest => do
    let he1 ← d.getTwin he0
    let f0 ← d.getFace he0
    let f1 ← d.getFace he1
    let s := (cg.adjacentVNodeIterator f1).foldl (fun acc q => insertPt q acc)
      ((cg.adjacentVNodeIterator f0).foldl (fun acc q => insertPt q acc) [])
    let tail ← calculateP d cg rest
    pure (s :: tail)

/-- Face-deletion loop of `internal::deleteVisibleFaces`: deletes each
visible face and its three half-edges, removes its V-node, and collects
the incident vertices that are not horizon vertices. -/
def delFacesLoop (d : Dcel) (cg : BipartiteGraph) (hv : List ℕ) :
    List ℕ → List ℕ → Option (Dcel × BipartiteGraph × List ℕ)
  | [], garbage => some (d, cg, garbage)
  | f :: rest, garbage => do
    let e1 ← d.getOuterHalfEdge f
    let e2 ← d.getNext e1
    let e3 ← d.getNext e2
    let v1 ← d.getFromVertex e1
    let v2 ← d.getToVertex e1
    let v3 ← d.getToVertex e2
    let d := (((d.deleteHalfEdge e1).deleteHalfEdge e2).deleteHalfEdge e3).deleteFace f
    let cg := cg.deleteVNode f
    let garbage := if v1 ∈ hv then garbage else insertNat v1 garbage
    let garbage := if v2 ∈ hv then garbage else insertNat v2 garbage
    let garbage := if v3 ∈ hv then garbage else insertNat v3 garbage
    delFacesLoop d cg hv rest garbage

/-- Source `internal::deleteVisibleFaces`: delete the visible faces with their
half-edges and V-nodes, then delete the collected non-horizon vertices. -/
def deleteVisibleFaces (d : Dcel) (hv : List ℕ) (visibleFaces : List ℕ)
    (cg : BipartiteGraph) : Option (Dcel × BipartiteGraph) := do
  let (d, cg, garbage) ← delFacesLoop d cg hv visibleFaces []
  pure (garbage.foldl (fun dd v => dd.deleteVertex v) d, cg)

/-- The conflict-check loop of `internal::insertNewFaces`: for each
candidate point, add an arc to the new face when the point sees it. -/
def addConflicts (d : Dcel) (cg : BipartiteGraph) (f : ℕ) :
    List Pt → Option BipartiteGraph
  | [] => some cg
  | pt :: rest => do
    let s ← see d f pt
    let cg := if s then cg.addArc pt f else cg
    addConflicts d cg f rest

/-- One new triangular face of `internal::insertNewFaces` over a horizon
edge `ext`: three fresh half-edges `e1` (twin of `ext`), `e2`, `e3`
wired as a cycle, a fresh face, and incident-edge updates for the two
horizon endpoints.  Returns the new `(e1, e2, e3, face)`. -/
def buildFace (d : Dcel) (ext v3 : ℕ) : Option (Dcel × ℕ × ℕ × ℕ × ℕ) := do
  let v2 ← d.getFromVertex ext
  let v1 ← d.getToVertex ext
  let (d, e1) := d.addHalfEdge
  let d := (d.setFromVertex e1 v1).setToVertex e1 v2
  let (d, e2) := d.addHalfEdge
  let d := (d.setFromVertex e2 v2).setToVertex e2 v3
  let (d, e3) := d.addHalfEdge
  let d := (d.setFromVertex e3 v3).setToVertex e3 v1
  let d := ((d.setNext e1 e2).setNext e2 e3).setNext e3 e1
  let d := ((d.setPrev e2 e1).setPrev e3 e2).setPrev e1 e3
  let d := (d.setTwin ext e1).setTwin e1 ext
  let (d, f) := d.addFace
  let d := d.setOuterHalfEdge f e1
  let d := ((d.setFace e1 f).setFace e2 f).setFace e3 f
  let d := (d.setIncidentHalfEdge v1 e1).setIncidentHalfEdge v2 e2
  pure (d, e1, e2, e3, f)

/-- The per-horizon-edge loop of `internal::insertNewFaces` (indices
`1 …`): builds each face, stitches the new `e3` with the previous
iteration's `e2`, registers the V-node and adds the conflicts from the
candidate set. -/
def insertNewFacesLoop (d : Dcel) (cg : BipartiteGraph) (v3 : ℕ) :
    List ℕ → List (List Pt) → ℕ → Option (Dcel × BipartiteGraph × ℕ)
  | [], _, e2prev => some (d, cg, e2prev)
  | ext :: extRest, Pi :: PRest, e2prev => do
    let (d, _, e2, e3, f) ← buildFace d ext v3
    let d := (d.setTwin e3 e2prev).setTwin e2prev e3
    let cg := cg.addVNode f
    let cg ← addConflicts d cg f Pi
    insertNewFacesLoop d cg v3 extRest PRest e2
  | _ :: _, [], _ => none

/-- Source `internal::insertNewFaces`: adds the new point as a vertex, builds
one new face per horizon edge (first face special-cased as in the
source), closes the twin cycle between the first and last new faces,
and adds the new conflicts. -/
def insertNewFaces (d : Dcel) (horizonEdges : List ℕ) (p : Pt)
    (cg : BipartiteGraph) (P : List (List Pt)) : Option (Dcel × BipartiteGraph) :=
  match horizonEdges, P with
  | ext0 :: extRest, P0 :: PRest => do
    let (d, v3) := d.addVertex p
    let (d, _, e2, e3, f) ← buildFace d ext0 v3
    let d := d.setIncidentHalfEdge v3 e3
    let oldE3 := e3
    let cg := cg.addVNode f
    let cg ← addConflicts d cg f P0
    let (d, cg, e2last) ← insertNewFacesLoop d cg v3 extRest PRest e2
    let d := (d.setTwin e2last oldE3).setTwin oldE3 e2last
    pure (d, cg)
  | _, _ => none

/-- Body of the per-point iteration of `cg3::convexHull`'s main loop:
a point with outgoing arcs is inserted (horizon computation, candidate
sets, U-node removal, visible-face deletion, new-face insertion); a
point with zero outgoing arcs only has its U-node deleted. -/
def processPoint (st : Dcel × BipartiteGraph) (p : Pt) (walkFuel : ℕ) :
    Option (Dcel × BipartiteGraph) :=
  if st.2.sizeAdjacencesUNode p > 0 then do
    let visibleFaces := (st.2.adjacentUNodeIterator p).foldl (fun acc f => insertNat f acc) []
    let (horizon, hv) ← horizonEdgeList st.1 visibleFaces p walkFuel
    let P ← calculateP st.1 st.2 horizon
    let cg := st.2.deleteUNode p
    let (d, cg) ← deleteVisibleFaces st.1 hv visibleFaces cg
    insertNewFaces d horizon p cg P
  else
    some (st.1, st.2.deleteUNode p)

/-- One pass of the main loop over a snapshot of the U-nodes. -/
def processPass (st : Dcel × BipartiteGraph) (walkFuel : ℕ) :
    List Pt → Option (Dcel × BipartiteGraph)
  | [] => some st
  | p :: rest => do
    let st ← processPoint st p walkFuel
    processPass st walkFuel rest

/-- The `while (cg.sizeU() > 0)` loop: repeat passes over the U-node
snapshot; `none` when the fuel runs out with U-nodes remaining. -/
def mainLoop (walkFuel : ℕ) : ℕ → Dcel × BipartiteGraph → Option (Dcel × BipartiteGraph)
  | 0, st => if st.2.sizeU = 0 then some st else none
  | fuel + 1, st =>
    if st.2.sizeU > 0 then do
      let st' ← processPass st walkFuel st.2.uNodes
      mainLoop walkFuel fuel st'
    else some st

/-- The seed-selection retry loop: at attempt `k` draw four raw values
`draws (4k) … draws (4k+3)`, reduce them modulo the point count, and
stop when the four indexed points have non-zero determinant.  `none` =
fuel exhausted with only zero determinants found. -/
def seedSearch (pts : List Pt) (draws : ℕ → ℕ) : ℕ → ℕ → Option (ℕ × ℕ × ℕ × ℕ × Q)
  | 0, _ => none
  | fuel + 1, k =>
    let n := pts.length
    let a := draws (4 * k) % n
    let b := draws (4 * k + 1) % n
    let c := draws (4 * k + 2) % n
    let e := draws (4 * k + 3) % n
    let det := complanar (pts.getD a default) (pts.getD b default)
      (pts.getD c default) (pts.getD e default)
    if Q.beq det 0 then seedSearch pts draws fuel (k + 1) else some (a, b, c, e, det)

/-- Source `std::swap(points[i], points[j])`. -/
def swapIdx (l : List Pt) (i j : ℕ) : List Pt :=
  match l.get? i, l.get? j with
  | some a, some b => (l.set i b).set j a
  | _, _ => l

/-- The four sequential swaps moving the drawn indices to the front:
`swap(points[0], points[a]); swap(points[1], points[b]);
swap(points[2], points[c]); swap(points[3], points[d])`. -/
def swapFront (pts : List Pt) (a b c e : ℕ) : List Pt :=
  swapIdx (swapIdx (swapIdx (swapIdx pts 0 a) 1 b) 2 c) 3 e

/-- Outcome of `std::random_shuffle`, modelled by an explicit
permutation of index positions (identity permutation = no reordering). -/
def shuffleWith (perm : List ℕ) (pts : List Pt) : List Pt :=
  perm.filterMap fun i => pts.get? i

/-- Registration of the initial tetrahedron's faces as V-nodes. -/
def registerVNodes (d : Dcel) (cg : BipartiteGraph) : BipartiteGraph :=
  d.faceIndices.foldl (fun g f => g.addVNode f) cg

/-- Conflict seeding: for every point of index ≥ 4 create a U-node and
add an arc for each initial face the point sees. -/
def seedConflicts (d : Dcel) (cg : BipartiteGraph) (points : List Pt) : BipartiteGraph :=
  (points.drop 4).foldl
    (fun g p =>
      d.faceIndices.foldl
        (fun g' f => if see d f p = some true then g'.addArc p f else g')
        (g.addUNode p))
    cg

/-- Everything of `cg3::convexHull(std::vector<Pointd>)` before the main
loop: shuffle, seed selection, the four swaps, the initial tetrahedron
(wound by determinant sign), V-node registration and conflict seeding. -/
def setupState (pts : List Pt) (perm : List ℕ) (draws : ℕ → ℕ) (seedFuel : ℕ) :
    Option (Dcel × BipartiteGraph) := do
  let points := shuffleWith perm pts
  let (a, b, c, e, det) ← seedSearch points draws seedFuel 0
  let points := swapFront points a b c e
  let d :=
    if Q.blt 0 det then
      insertTet Dcel.empty (points.getD 0 default) (points.getD 1 default)
        (points.getD 2 default) (points.getD 3 default)
    else
      insertTet Dcel.empty (points.getD 1 default) (points.getD 0 default)
        (points.getD 2 default) (points.getD 3 default)
  let cg := seedConflicts d (registerVNodes d BipartiteGraph.empty) points
  pure (d, cg)

/-- Source `cg3::convexHull(std::vector<Pointd>)`.  The final
`updateFaceNormals` / `updateVertexNormals` / `updateBoundingBox` calls
are out-of-scope side effects of the external mesh collaborator and do
not change the connectivity or coordinates returned here. -/
def convexHullPoints (pts : List Pt) (perm : List ℕ) (draws : ℕ → ℕ)
    (seedFuel loopFuel walkFuel : ℕ) : Option Dcel := do
  let st ← setupState pts perm draws seedFuel
  let (d, _) ← mainLoop walkFuel loopFuel st
  pure d

/-- Source `cg3::convexHull(const Dcel&)`: extracts the coordinate of every
vertex in iteration order, then delegates to the point-set overload. -/
def convexHullDcel (input : Dcel) (perm : List ℕ) (draws : ℕ → ℕ)
    (seedFuel loopFuel walkFuel : ℕ) : Option Dcel :=
  convexHullPoints input.vertexCoords perm draws seedFuel loopFuel walkFuel

/-- Modelled from the spec: the spec's description of the mesh entry
point — "extracts points from an existing mesh's vertices, then
delegates" to `convexHull(points)` on the extracted point sequence. -/
def specConvexHullOfMesh (input : Dcel) (perm : List ℕ) (draws : ℕ → ℕ)
    (seedFuel loopFuel walkFuel : ℕ) : Option Dcel :=
  let points := input.vertexCoords
  convexHullPoints points perm draws seedFuel loopFuel walkFuel

/-- Checker: every live half-edge's twin's twin is itself. -/
def twinInvolutionHolds (d : Dcel) : Bool :=
  d.halfEdgeIndices.all fun e => decide ((d.getTwin e).bind d.getTwin = some e)

/-- Checker: every live face's boundary cycles through exactly three
distinct half-edges. -/
def trianglesHold (d : Dcel) : Bool :=
  d.faceIndices.all fun f =>
    match faceHalfEdges d f with
    | some (e1, e2, e3) =>
      decide (e1 ≠ e2 ∧ e1 ≠ e3 ∧ e2 ≠ e3 ∧ d.getNext e3 = some e1)
    | none => false

/-- Checker: Euler's formula `V − E + F = 2` for the live elements, in
the half-edge form `2V − H + 2F = 4` (each edge is two half-edges). -/
def eulerHolds (d : Dcel) : Bool :=
  decide (2 * d.vertexIndices.length + 2 * d.faceIndices.length
    = 4 + d.halfEdgeIndices.length)

/-- Checker: no point of the list is strictly outside the supporting
plane of any live face (orientation determinant of the face's first
three vertices with the point is nonnegative). -/
def noPointStrictlyOutside (d : Dcel) (pts : List Pt) : Bool :=
  d.faceIndices.all fun f =>
    match faceVerts d f with
    | some (q1, q2, q3) => pts.all fun p => Q.ble 0 (complanar q1 q2 q3 p)
    | none => false

/-- Checker: the twin reference is symmetric on the whole arena. -/
def twinSymmetric (d : Dcel) : Bool :=
  (List.range d.halfEdges.length).all fun e =>
    match d.getTwin e with
    | some e1 => decide (d.getTwin e1 = some e)
    | none => true

/-- Checker: `next` never leaves the incident face. -/
def nextSameFace (d : Dcel) : Bool :=
  (List.range d.halfEdges.length).all fun e =>
    match d.getNext e with
    | some e1 => decide (d.getFace e1 = d.getFace e)
    | none => true

/-- Checker: some visible face has a half-edge whose twin's face is not
visible (the existence the boundary-search assertion relies on). -/
def existsBoundary (d : Dcel) (p : Pt) (visibleFaces : List ℕ) : Bool :=
  visibleFaces.any fun f => (boundaryEdgeOfFace d p f).isSome

/-- The spec's minimal-case input: four non-coplanar points. -/
def tetraPts : List Pt := [⟨0, 0, 0⟩, ⟨1, 0, 0⟩, ⟨0, 1, 0⟩, ⟨0, 0, 1⟩]

/-- The spec's concrete scenario input: the four tetrahedron corners
plus the strictly interior point `(0.2, 0.2, 0.2)`. -/
def scenarioPts : List Pt := tetraPts ++ [⟨⟨1, 5⟩, ⟨1, 5⟩, ⟨1, 5⟩⟩]

/-- Identity draw stream: `rand()` returning `0, 1, 2, 3, …`. -/
def natId : ℕ → ℕ := fun i => i

/-- Hull of the 4-point input (identity shuffle, draws `0,1,2,3`). -/
def hullTetra : Option Dcel :=
  convexHullPoints tetraPts (List.range 4) natId 4 4 32

/-- Hull of the 5-point scenario (identity shuffle, draws `0,1,2,3`). -/
def hullScenario : Option Dcel :=
  convexHullPoints scenarioPts (List.range 5) natId 4 4 32

/-- A point lying within machine epsilon of the plane of the new face
`(B, A, p4)` created when `(1,1,-3)` is inserted over the tetrahedron
`A=(0,0,0), B=(4,0,0), C=(0,400,0), D=(0,0,400)`, while conflicting with
the faces `BCD` and `(C,B,p4)`: its `y` and `z` coordinates are
`eps/100`. -/
def c2q : Pt := ⟨5, ⟨1, 450359962737049600⟩, ⟨1, 450359962737049600⟩⟩

/-- Input on which the returned mesh is combinatorially broken. -/
def c2Pts : List Pt :=
  [⟨0, 0, 0⟩, ⟨4, 0, 0⟩, ⟨0, 400, 0⟩, ⟨0, 0, 400⟩, ⟨1, 1, -3⟩, c2q]

/-- Hull of the 6-point epsilon-marginal input. -/
def hullC2 : Option Dcel :=
  convexHullPoints c2Pts (List.range 6) natId 4 4 32

/-- The first point inserted in the C6 and C2 scenarios: it sees only
the face `(B, A, C)` of the initial tetrahedron. -/
def c6p4 : Pt := ⟨1, 1, -3⟩

/-- A point strictly inside the initial tetrahedron by more than
epsilon with respect to all four faces (so it gets no conflict arcs),
yet within epsilon of the plane of the new face `(B, A, p4)`: its `y`
and `z` coordinates are `eps/800`. -/
def c6q : Pt := ⟨2, ⟨1, 3602879701896396800⟩, ⟨1, 3602879701896396800⟩⟩

/-- Input whose run reaches a state violating the arc-iff-sees
invariant. -/
def c6Pts : List Pt :=
  [⟨0, 0, 0⟩, ⟨4, 0, 0⟩, ⟨0, 400, 0⟩, ⟨0, 0, 400⟩, c6p4, c6q]

/-- The state after conflict seeding on the C6 input. -/
def c6Setup : Option (Dcel × BipartiteGraph) :=
  setupState c6Pts (List.range 6) natId 4

/-- The state observed after the first insertion step of the main loop
on the C6 input: the first pass of the loop processes the head of the
U-node snapshot first, so this is exactly the state after one
insertion. -/
def c6Mid : Option (Dcel × BipartiteGraph) := do
  let st ← c6Setup
  match st.2.uNodes with
  | p :: _ => processPoint st p 32
  | [] => none

/-- Five points whose last one is the apex of a pyramid over the
coplanar first four: `P4, P0, P1, P2` are non-coplanar while
`P1, P2, P3, P4` are coplanar. -/
def c4Pts : List Pt :=
  [⟨0, 0, 1⟩, ⟨0, 0, 0⟩, ⟨1, 0, 0⟩, ⟨0, 1, 0⟩, ⟨1, 1, 0⟩]

/-- Draw stream delivering the index quadruple `(4, 0, 1, 2)`. -/
def c4Draws : ℕ → ℕ := fun i => [4, 0, 1, 2].getD i 0

/-- The initial tetrahedron of the C6 scenario (determinant negative,
so wound as `(B, A, C, D)`). -/
def c5Mesh : Dcel :=
  insertTet Dcel.empty ⟨4, 0, 0⟩ ⟨0, 0, 0⟩ ⟨0, 400, 0⟩ ⟨0, 0, 400⟩

/-- Checker: every live face's outer half-edge carries that face as its
incident face. -/
def outerFaceConsistent (d : Dcel) : Bool :=
  (List.range d.faces.length).all fun f =>
    match d.getOuterHalfEdge f with
    | some e => decide (d.getFace e = some f)
    | none => true

/-- Checker: a half-edge whose incident face is seen by the point (the
state space of the boundary walk). -/
def visEdge (d : Dcel) (p : Pt) (e : ℕ) : Bool :=
  decide (((d.getFace e).bind fun f => see d f p) = some true)

/-- The successor function of the boundary walk: cross to the next of
the twin when the twin's face is seen, otherwise advance to the next of
the current half-edge. -/
def walkStep (d : Dcel) (p : Pt) (e0 : ℕ) : Option ℕ :=
  match walkProbe d p e0 with
  | some (e1, true) => d.getNext e1
  | some (_e1, false) => d.getNext e0
  | none => none

/-- Checker: `next` is injective where defined (each half-edge has at
most one predecessor, as in a consistent doubly linked face cycle). -/
def nextInjective (d : Dcel) : Bool :=
  (List.range d.halfEdges.length).all fun e =>
    (List.range d.halfEdges.length).all fun e2 =>
      match d.getNext e, d.getNext e2 with
      | some x, some y => decide (x = y → e = e2)
      | _, _ => true

/-- Checker: every half-edge with a seen incident face has a successful
probe (live twin with a live face whose visibility evaluates), a
defined `next` and a defined from-vertex — the dereferences the
boundary walk performs. -/
def seenEdgesTotal (d : Dcel) (p : Pt) : Bool :=
  (List.range d.halfEdges.length).all fun e =>
    if visEdge d p e then
      (walkProbe d p e).isSome && (d.getNext e).isSome &&
        (d.getFromVertex e).isSome
    else true

/-- Iterates of the boundary-walk successor function. -/
def walkIter (d : Dcel) (p : Pt) (e : ℕ) : ℕ → Option ℕ
  | 0 => some e
  | n + 1 => (walkIter d p e n).bind (walkStep d p)

/-- The non-strict comparison is the negation of the reversed strict
comparison (the cross-multiplied integer comparisons are total). -/
theorem Q.ble_eq_bnot_blt (a b : Q) : Q.ble a b = !Q.blt b a := by
  simp only [Q.ble, Q.blt, ← decide_not, decide_eq_decide]
  exact Int.not_lt.symm

/-- C1 counterexample: on the minimal 4-point input the returned hull
has a face (face 0) and an input point (the origin, a vertex of that
face, hence exactly on its supporting plane) for which the visibility
test returns "visible", contradicting the claim that `see` returns
"not visible" for every face and every input point. -/
theorem see_visible_on_own_vertex :
    (⟨0, 0, 0⟩ : Pt) ∈ tetraPts ∧
    (hullTetra.bind fun d => see d 0 ⟨0, 0, 0⟩) = some true := by
  constructor
  · decide
  · set_option maxRecDepth 100000 in decide

/-- C1 amended: on the spec's concrete scenarios (the 4-point minimal
case and the 5-point interior-point scenario) no input point is
strictly outside the supporting plane of any face of the returned hull
(the orientation determinant of each face's first three vertices with
each input point is nonnegative); the `see` test itself, however,
reports points on or within epsilon of a face's plane — in particular
each face's own vertices — as visible. -/
theorem hull_no_input_point_strictly_outside :
    (hullTetra.map fun d => noPointStrictlyOutside d tetraPts) = some true ∧
    (hullScenario.map fun d => noPointStrictlyOutside d scenarioPts) = some true := by
  constructor
  · set_option maxRecDepth 100000 in decide
  · set_option maxRecDepth 100000 in decide

/-- C2 counterexample: on the 6-point input `c2Pts` (all points
non-coplanar — the seed determinant is `-640000`) the returned mesh is
combinatorially broken: some live half-edge's twin's twin is not
itself, and Euler's formula fails (`2V − H + 2F = 12 − 27 + 18 = 3 ≠ 4`;
the count of live half-edges is odd, so the mesh is not even closed). -/
theorem hull_topology_broken_on_marginal_input :
    Q.beq (complanar (c2Pts.getD 0 default) (c2Pts.getD 1 default)
      (c2Pts.getD 2 default) (c2Pts.getD 3 default)) 0 = false ∧
    (hullC2.map fun d => (twinInvolutionHolds d, eulerHolds d)) = some (false, false) := by
  constructor
  · decide
  · set_option maxRecDepth 600000 in decide

/-- C2 amended: on non-degenerate inputs whose visibility
classifications stay consistent — in particular the spec's concrete
scenarios — the returned mesh is a closed, triangulated,
combinatorially consistent polyhedron: twin∘twin is the identity on
live half-edges, every face boundary is a 3-cycle of distinct
half-edges, and Euler's formula `V − E + F = 2` holds. -/
theorem hull_topology_consistent_on_scenarios :
    (hullTetra.map fun d =>
      twinInvolutionHolds d && trianglesHold d && eulerHolds d) = some true ∧
    (hullScenario.map fun d =>
      twinInvolutionHolds d && trianglesHold d && eulerHolds d) = some true := by
  constructor
  · set_option maxRecDepth 100000 in decide
  · set_option maxRecDepth 100000 in decide

/-- C4: the seed-selection block exits the retry loop with the drawn
index quadruple `(4,0,1,2)`, whose points have determinant `-1 ≠ 0`,
but the four sequential swaps do not bring those four points to the
front: point `(0,0,1)` (drawn, as `points[0]`) ends at the back, the
undrawn point `(0,1,0)` ends in front, and the actual front quadruple
is coplanar (determinant `0`), so the tetrahedron subsequently built is
degenerate. -/
theorem seed_swaps_misplace_drawn_points :
    seedSearch c4Pts c4Draws 4 0 = some (4, 0, 1, 2, ⟨-1, 1⟩) ∧
    swapFront c4Pts 4 0 1 2 =
      [⟨0, 0, 0⟩, ⟨1, 0, 0⟩, ⟨0, 1, 0⟩, ⟨1, 1, 0⟩, ⟨0, 0, 1⟩] ∧
    (⟨0, 0, 1⟩ : Pt) ∉ (swapFront c4Pts 4 0 1 2).take 4 ∧
    Q.beq (complanar ((swapFront c4Pts 4 0 1 2).getD 0 default)
      ((swapFront c4Pts 4 0 1 2).getD 1 default)
      ((swapFront c4Pts 4 0 1 2).getD 2 default)
      ((swapFront c4Pts 4 0 1 2).getD 3 default)) 0 = true := by
  refine ⟨by decide, by decide, by decide, by decide⟩

/-- C7: a U-node with zero outgoing arcs is deleted from the conflict
graph and skipped, leaving the mesh unchanged (first conjunct,
universally over states); consequently the 5-point scenario run returns
a hull with exactly 4 faces and 4 vertices, the interior fifth point
`(0.2, 0.2, 0.2)` not being among the result's vertices. -/
theorem interior_point_dropped :
    (∀ (st : Dcel × BipartiteGraph) (p : Pt) (fuel : ℕ),
      st.2.sizeAdjacencesUNode p = 0 →
      processPoint st p fuel = some (st.1, st.2.deleteUNode p)) ∧
    (hullScenario.map fun d =>
      (d.faceIndices.length, d.vertexIndices.length,
        d.vertexCoords.contains ⟨⟨1, 5⟩, ⟨1, 5⟩, ⟨1, 5⟩⟩)) = some (4, 4, false) := by
  constructor
  · intro st p fuel h
    simp [processPoint, h]
  · set_option maxRecDepth 100000 in decide

/-- Witness for C7: the first conjunct applied at a concrete state (a
tetrahedron mesh with one U-node that has no arcs). -/
theorem interior_point_dropped_witness :
    (BipartiteGraph.empty.addUNode c6q).sizeAdjacencesUNode c6q = 0 ∧
    processPoint (c5Mesh, BipartiteGraph.empty.addUNode c6q) c6q 8 =
      some (c5Mesh, (BipartiteGraph.empty.addUNode c6q).deleteUNode c6q) :=
  ⟨by decide, interior_point_dropped.1 _ _ _ (by decide)⟩

/-- C8: the mesh overload of `convexHull` is definitionally the
composition "extract the coordinates of the mesh's vertices in
iteration order, then run the point-set overload": it coincides with
the spec-worded extraction-then-delegation for every input mesh and
every outcome of the random choices. -/
theorem convexHull_mesh_equals_extract_then_delegate :
    ∀ (input : Dcel) (perm : List ℕ) (draws : ℕ → ℕ) (sf lf wf : ℕ),
      convexHullDcel input perm draws sf lf wf =
        specConvexHullOfMesh input perm draws sf lf wf :=
  fun _ _ _ _ _ _ => rfl

/-- C10: two runs on the same point list with the same shuffle outcome
and pointwise-equal draw streams return identical results (the embedded
construction is a pure function of the input and the randomness). -/
theorem same_randomness_same_hull (pts : List Pt) (perm : List ℕ)
    (draws1 draws2 : ℕ → ℕ) (sf lf wf : ℕ)
    (h : ∀ i, draws1 i = draws2 i) :
    convexHullPoints pts perm draws1 sf lf wf =
      convexHullPoints pts perm draws2 sf lf wf := by
  have hd : draws1 = draws2 := funext h
  rw [hd]

/-- Witness for C10: the determinism theorem applied to the tetrahedron
input with two syntactically different but pointwise-equal draw
streams. -/
theorem same_randomness_same_hull_witness :
    (∀ i, natId i = i + 0) ∧
    convexHullPoints tetraPts (List.range 4) natId 4 4 32 =
      convexHullPoints tetraPts (List.range 4) (fun i => i + 0) 4 4 32 :=
  ⟨fun _ => rfl,
    same_randomness_same_hull tetraPts (List.range 4) natId (fun i => i + 0)
      4 4 32 (fun _ => rfl)⟩

/-- C3: whenever a face yields its first three incident vertices
`q1, q2, q3` (in stored winding order), the visibility test returns
"visible" exactly when the orientation determinant of `q1, q2, q3, p`
is less than or equal to epsilon, and "not visible" exactly when the
determinant strictly exceeds epsilon (so near-coplanar points count as
visible and points strictly interior beyond epsilon do not). -/
theorem see_iff_det_le_eps (d : Dcel) (f : ℕ) (p q1 q2 q3 : Pt)
    (h : faceVerts d f = some (q1, q2, q3)) :
    (see d f p = some true ↔ Q.ble (complanar q1 q2 q3 p) eps = true) ∧
    (see d f p = some false ↔ Q.blt eps (complanar q1 q2 q3 p) = true) := by
  have hsee : see d f p = some (!(Q.blt eps (complanar q1 q2 q3 p))) := by
    simp [see, h]
  rw [hsee, Q.ble_eq_bnot_blt]
  cases Q.blt eps (complanar q1 q2 q3 p) <;> simp

/-- Witness for C3: the characterization applied to face 0 of the
initial tetrahedron of the C6 scenario and the point `(1,1,-3)`. -/
theorem see_iff_det_le_eps_witness :
    faceVerts c5Mesh 0 = some (⟨4, 0, 0⟩, ⟨0, 0, 0⟩, ⟨0, 400, 0⟩) ∧
    ((see c5Mesh 0 c6p4 = some true ↔
        Q.ble (complanar ⟨4, 0, 0⟩ ⟨0, 0, 0⟩ ⟨0, 400, 0⟩ c6p4) eps = true) ∧
      (see c5Mesh 0 c6p4 = some false ↔
        Q.blt eps (complanar ⟨4, 0, 0⟩ ⟨0, 0, 0⟩ ⟨0, 400, 0⟩ c6p4) = true)) :=
  ⟨by decide, see_iff_det_le_eps c5Mesh 0 c6p4 _ _ _ (by decide)⟩

/-- C6 counterexample: in the C6 run the first insertion step (for the
point `(1,1,-3)`, the head of the U-node snapshot) produces a state in
which the still-unprocessed point `c6q` sees the new face 4 (its
determinant against that face is within epsilon), yet the conflict
graph has no arc `(c6q, 4)`: `c6q` conflicts with neither face adjacent
to the horizon edge, so it was never tested. -/
theorem conflict_arc_missing_for_seeing_point :
    (c6Setup.map fun st => st.2.uNodes.head?) = some (some c6p4) ∧
    (c6Mid.map fun st =>
      (st.2.uNodes.contains c6q, see st.1 4 c6q, st.2.arcs.contains (c6q, 4))) =
      some (true, some true, false) := by
  exact ⟨by decide, by decide⟩

theorem addArc_uNodes (g : BipartiteGraph) (p : Pt) (f : ℕ) :
    (g.addArc p f).uNodes = g.uNodes := by
  unfold BipartiteGraph.addArc
  split <;> rfl

theorem addArc_vNodes (g : BipartiteGraph) (p : Pt) (f : ℕ) :
    (g.addArc p f).vNodes = g.vNodes := by
  unfold BipartiteGraph.addArc
  split <;> rfl

theorem mem_addArc_arcs (g : BipartiteGraph) (p : Pt) (f : ℕ) (x : Pt × ℕ) :
    x ∈ (g.addArc p f).arcs ↔
      x ∈ g.arcs ∨ (x = (p, f) ∧ p ∈ g.uNodes ∧ f ∈ g.vNodes) := by
  unfold BipartiteGraph.addArc
  split
  next hc =>
    simp only [List.mem_append, List.mem_singleton]
    tauto
  next hc =>
    simp only [not_and, not_not] at hc
    constructor
    · exact Or.inl
    · rintro (hx | ⟨rfl, hu, hv⟩)
      · exact hx
      · by_cases harc : (p, f) ∈ g.arcs
        · exact harc
        · exact absurd harc (by tauto)

theorem addConflicts_nodes (d : Dcel) (f : ℕ) :
    ∀ (pts : List Pt) (cg cg' : BipartiteGraph),
      addConflicts d cg f pts = some cg' →
      cg'.uNodes = cg.uNodes ∧ cg'.vNodes = cg.vNodes := by
  intro pts
  induction pts with
  | nil =>
    intro cg cg' h
    simp only [addConflicts, Option.some.injEq] at h
    rw [← h]
    exact ⟨rfl, rfl⟩
  | cons pt rest ih =>
    intro cg cg' h
    unfold addConflicts at h
    cases hs : see d f pt with
    | none => rw [hs] at h; simp at h
    | some s =>
      rw [hs] at h
      simp only [Option.bind_eq_bind, Option.some_bind] at h
      cases s with
      | false =>
        simpa using ih cg cg' (by simpa using h)
      | true =>
        have := ih (cg.addArc pt f) cg' (by simpa using h)
        rw [addArc_uNodes, addArc_vNodes] at this
        exact this

theorem addConflicts_arcs_mono (d : Dcel) (f : ℕ) :
    ∀ (pts : List Pt) (cg cg' : BipartiteGraph),
      addConflicts d cg f pts = some cg' →
      ∀ x ∈ cg.arcs, x ∈ cg'.arcs := by
  intro pts
  induction pts with
  | nil =>
    intro cg cg' h x hx
    simp only [addConflicts, Option.some.injEq] at h
    rw [← h]; exact hx
  | cons pt rest ih =>
    intro cg cg' h x hx
    unfold addConflicts at h
    cases hs : see d f pt with
    | none => rw [hs] at h; simp at h
    | some s =>
      rw [hs] at h
      simp only [Option.bind_eq_bind, Option.some_bind] at h
      cases s with
      | false => exact ih cg cg' (by simpa using h) x hx
      | true =>
        refine ih (cg.addArc pt f) cg' (by simpa using h) x ?_
        exact (mem_addArc_arcs cg pt f x).mpr (Or.inl hx)

/-- C6 amended: the conflict-check loop of `insertNewFaces` adds arcs
to the new face exactly for the live points of the precomputed
candidate set that the visibility test confirms — soundness (every arc
of the result is either pre-existing or goes to this face from a
candidate that sees it) and completeness restricted to the candidate
set (every live candidate that sees the face gets its arc).  Points
outside the candidate set are never tested, which is what the
counterexample exploits. -/
theorem addConflicts_adds_exactly_seen_candidates (d : Dcel) (f : ℕ) :
    ∀ (pts : List Pt) (cg cg' : BipartiteGraph),
      addConflicts d cg f pts = some cg' →
      (∀ x ∈ cg'.arcs,
        x ∈ cg.arcs ∨ (x.2 = f ∧ x.1 ∈ pts ∧ see d f x.1 = some true)) ∧
      (∀ pt ∈ pts, see d f pt = some true → pt ∈ cg.uNodes → f ∈ cg.vNodes →
        (pt, f) ∈ cg'.arcs) := by
  intro pts
  induction pts with
  | nil =>
    intro cg cg' h
    simp only [addConflicts, Option.some.injEq] at h
    constructor
    · intro x hx
      rw [← h] at hx
      exact Or.inl hx
    · intro pt hpt
      exact absurd hpt (List.not_mem_nil pt)
  | cons pt rest ih =>
    intro cg cg' h
    unfold addConflicts at h
    cases hs : see d f pt with
    | none => rw [hs] at h; simp at h
    | some s =>
      rw [hs] at h
      simp only [Option.bind_eq_bind, Option.some_bind] at h
      cases s with
      | false =>
        have h' : addConflicts d cg f rest = some cg' := by simpa using h
        obtain ⟨hsound, hcomp⟩ := ih cg cg' h'
        constructor
        · intro x hx
          rcases hsound x hx with hx' | ⟨h2, h1, h3⟩
          · exact Or.inl hx'
          · exact Or.inr ⟨h2, List.mem_cons_of_mem _ h1, h3⟩
        · intro q hq hqsee hqu hqv
          rcases List.mem_cons.mp hq with rfl | hq'
          · rw [hs] at hqsee; exact absurd hqsee (by simp)
          · exact hcomp q hq' hqsee hqu hqv
      | true =>
        have h' : addConflicts d (cg.addArc pt f) f rest = some cg' := by simpa using h
        obtain ⟨hsound, hcomp⟩ := ih (cg.addArc pt f) cg' h'
        constructor
        · intro x hx
          rcases hsound x hx with hx' | ⟨h2, h1, h3⟩
          · rcases (mem_addArc_arcs cg pt f x).mp hx' with hx'' | ⟨rfl, _, _⟩
            · exact Or.inl hx''
            · exact Or.inr ⟨rfl, List.mem_cons_self pt rest, hs⟩
          · exact Or.inr ⟨h2, List.mem_cons_of_mem _ h1, h3⟩
        · intro q hq hqsee hqu hqv
          rcases List.mem_cons.mp hq with rfl | hq'
          · refine addConflicts_arcs_mono d f rest _ _ h' _ ?_
            exact (mem_addArc_arcs cg q f (q, f)).mpr (Or.inr ⟨rfl, hqu, hqv⟩)
          · refine hcomp q hq' hqsee ?_ ?_
            · rw [addArc_uNodes]; exact hqu
            · rw [addArc_vNodes]; exact hqv

/-- Witness for C6's amended theorem: the characterization applied to a
concrete conflict-check run (face 0 of the C6 tetrahedron, candidate
list `[(1,1,-3)]`, which sees that face). -/
theorem addConflicts_adds_exactly_seen_candidates_witness :
    addConflicts c5Mesh ⟨[c6p4], [0], []⟩ 0 [c6p4] =
      some ⟨[c6p4], [0], [(c6p4, 0)]⟩ ∧
    ((∀ x ∈ (⟨[c6p4], [0], [(c6p4, 0)]⟩ : BipartiteGraph).arcs,
        x ∈ (⟨[c6p4], [0], []⟩ : BipartiteGraph).arcs ∨
          (x.2 = 0 ∧ x.1 ∈ [c6p4] ∧ see c5Mesh 0 x.1 = some true)) ∧
      (∀ pt ∈ [c6p4], see c5Mesh 0 pt = some true →
        pt ∈ (⟨[c6p4], [0], []⟩ : BipartiteGraph).uNodes →
        0 ∈ (⟨[c6p4], [0], []⟩ : BipartiteGraph).vNodes →
        (pt, 0) ∈ (⟨[c6p4], [0], [(c6p4, 0)]⟩ : BipartiteGraph).arcs)) :=
  ⟨by decide,
    addConflicts_adds_exactly_seen_candidates c5Mesh 0 [c6p4] _ _ (by decide)⟩

theorem getD_mem_of_lt : ∀ (l : List Pt) (n : ℕ), n < l.length → l.getD n default ∈ l
  | a :: _, 0, _ => List.mem_cons_self a _
  | _ :: l, n + 1, h =>
    List.mem_cons_of_mem _ (getD_mem_of_lt l n (Nat.lt_of_succ_lt_succ h))

theorem complanar_default_zero :
    Q.beq (complanar default default default default) 0 = true := by decide

theorem seedSearch_none_of_coplanar (l : List Pt) (draws : ℕ → ℕ)
    (hcop : ∀ p0 ∈ l, ∀ p1 ∈ l, ∀ p2 ∈ l, ∀ p3 ∈ l,
      Q.beq (complanar p0 p1 p2 p3) 0 = true) :
    ∀ fuel k, seedSearch l draws fuel k = none := by
  intro fuel
  induction fuel with
  | zero => intro k; rfl
  | succ n ih =>
    intro k
    unfold seedSearch
    have hbeq : Q.beq (complanar (l.getD (draws (4 * k) % l.length) default)
        (l.getD (draws (4 * k + 1) % l.length) default)
        (l.getD (draws (4 * k + 2) % l.length) default)
        (l.getD (draws (4 * k + 3) % l.length) default)) 0 = true := by
      cases l with
      | nil => exact complanar_default_zero
      | cons a t =>
        have hlen : 0 < (a :: t).length := by simp
        exact hcop _ (getD_mem_of_lt _ _ (Nat.mod_lt _ hlen))
          _ (getD_mem_of_lt _ _ (Nat.mod_lt _ hlen))
          _ (getD_mem_of_lt _ _ (Nat.mod_lt _ hlen))
          _ (getD_mem_of_lt _ _ (Nat.mod_lt _ hlen))
    simp only [hbeq, if_true]
    exact ih (k + 1)

theorem mem_of_shuffleWith (perm : List ℕ) (pts : List Pt) (x : Pt)
    (h : x ∈ shuffleWith perm pts) : x ∈ pts := by
  unfold shuffleWith at h
  rcases List.mem_filterMap.mp h with ⟨i, _, hi⟩
  exact List.get?_mem hi

/-- C9: when every quadruple of input points is coplanar (for instance
all points coincident), the seed-selection retry loop never succeeds —
for every amount of fuel the search returns `none`, i.e. the unbounded
`do … while` loop of the source never terminates — and consequently
`convexHull` does not return, for any shuffle outcome and any fuel. -/
theorem seed_retry_never_terminates (pts : List Pt) (draws : ℕ → ℕ)
    (hcop : ∀ p0 ∈ pts, ∀ p1 ∈ pts, ∀ p2 ∈ pts, ∀ p3 ∈ pts,
      Q.beq (complanar p0 p1 p2 p3) 0 = true) :
    (∀ fuel k, seedSearch pts draws fuel k = none) ∧
    (∀ (perm : List ℕ) (sf lf wf : ℕ),
      convexHullPoints pts perm draws sf lf wf = none) := by
  refine ⟨seedSearch_none_of_coplanar pts draws hcop, ?_⟩
  intro perm sf lf wf
  have hcop' : ∀ p0 ∈ shuffleWith perm pts, ∀ p1 ∈ shuffleWith perm pts,
      ∀ p2 ∈ shuffleWith perm pts, ∀ p3 ∈ shuffleWith perm pts,
      Q.beq (complanar p0 p1 p2 p3) 0 = true := by
    intro p0 h0 p1 h1 p2 h2 p3 h3
    exact hcop _ (mem_of_shuffleWith _ _ _ h0) _ (mem_of_shuffleWith _ _ _ h1)
      _ (mem_of_shuffleWith _ _ _ h2) _ (mem_of_shuffleWith _ _ _ h3)
  have hS := seedSearch_none_of_coplanar _ draws hcop' sf 0
  simp [convexHullPoints, setupState, hS]

/-- Input with every point coincident: every index quadruple draws four
copies of the same point, whose determinant is zero. -/
def coincidentPts : List Pt := [⟨0, 0, 0⟩, ⟨0, 0, 0⟩]

/-- Witness for C9: the divergence theorem applied to the coincident
two-point input. -/
theorem seed_retry_never_terminates_witness :
    (∀ p0 ∈ coincidentPts, ∀ p1 ∈ coincidentPts, ∀ p2 ∈ coincidentPts,
      ∀ p3 ∈ coincidentPts, Q.beq (complanar p0 p1 p2 p3) 0 = true) ∧
    ((∀ fuel k, seedSearch coincidentPts natId fuel k = none) ∧
      (∀ (perm : List ℕ) (sf lf wf : ℕ),
        convexHullPoints coincidentPts perm natId sf lf wf = none)) :=
  ⟨by decide, seed_retry_never_terminates coincidentPts natId (by decide)⟩

theorem bind_he_lt {α : Type} (d : Dcel) (e : ℕ) (g : HalfEdgeRec → Option α) (x : α)
    (h : (d.he e).bind g = some x) : e < d.halfEdges.length := by
  by_contra hlt
  have hnone : d.he e = none := by
    unfold Dcel.he
    exact List.getD_eq_default _ _ (Nat.le_of_not_lt hlt)
  rw [hnone] at h
  simp at h

theorem bind_fc_lt {α : Type} (d : Dcel) (f : ℕ) (g : FaceRec → Option α) (x : α)
    (h : (d.fc f).bind g = some x) : f < d.faces.length := by
  by_contra hlt
  have hnone : d.fc f = none := by
    unfold Dcel.fc
    exact List.getD_eq_default _ _ (Nat.le_of_not_lt hlt)
  rw [hnone] at h
  simp at h

theorem of_twinSymmetric (d : Dcel) (h : twinSymmetric d = true) :
    ∀ e e1, d.getTwin e = some e1 → d.getTwin e1 = some e := by
  intro e e1 he
  have hlt : e < d.halfEdges.length := bind_he_lt d e _ _ he
  have hall := List.all_eq_true.mp h e (List.mem_range.mpr hlt)
  simp only [he] at hall
  exact of_decide_eq_true hall

theorem of_nextSameFace (d : Dcel) (h : nextSameFace d = true) :
    ∀ e e1, d.getNext e = some e1 → d.getFace e1 = d.getFace e := by
  intro e e1 he
  have hlt : e < d.halfEdges.length := bind_he_lt d e _ _ he
  have hall := List.all_eq_true.mp h e (List.mem_range.mpr hlt)
  simp only [he] at hall
  exact of_decide_eq_true hall

theorem of_outerFaceConsistent (d : Dcel) (h : outerFaceConsistent d = true) :
    ∀ f e, d.getOuterHalfEdge f = some e → d.getFace e = some f := by
  intro f e he
  have hlt : f < d.faces.length := bind_fc_lt d f _ _ he
  have hall := List.all_eq_true.mp h f (List.mem_range.mpr hlt)
  simp only [he] at hall
  exact of_decide_eq_true hall

theorem faceHalfEdges_eq (d : Dcel) (f a b c : ℕ)
    (h : faceHalfEdges d f = some (a, b, c)) :
    d.getOuterHalfEdge f = some a ∧ d.getNext a = some b ∧ d.getNext b = some c := by
  unfold faceHalfEdges at h
  simp only [Option.bind_eq_bind, Option.bind_eq_some, Option.pure_def,
    Option.some.injEq, Prod.mk.injEq] at h
  obtain ⟨e1, h1, e2, h2, e3, h3, rfl, rfl, rfl⟩ := h
  exact ⟨h1, h2, h3⟩

theorem faceHalfEdges_face (d : Dcel)
    (hnx : ∀ e e1, d.getNext e = some e1 → d.getFace e1 = d.getFace e)
    (hout : ∀ f e, d.getOuterHalfEdge f = some e → d.getFace e = some f)
    (f a b c : ℕ) (h : faceHalfEdges d f = some (a, b, c)) :
    d.getFace a = some f ∧ d.getFace b = some f ∧ d.getFace c = some f := by
  obtain ⟨h1, h2, h3⟩ := faceHalfEdges_eq d f a b c h
  have ha := hout f a h1
  have hb := (hnx a b h2).trans ha
  have hc := (hnx b c h3).trans hb
  exact ⟨ha, hb, hc⟩

theorem walkProbe_spec (d : Dcel) (p : Pt) (e0 e1 : ℕ) (s : Bool)
    (h : walkProbe d p e0 = some (e1, s)) :
    d.getTwin e0 = some e1 ∧ ∃ af, d.getFace e1 = some af ∧ see d af p = some s := by
  unfold walkProbe at h
  simp only [Option.bind_eq_bind, Option.bind_eq_some, Option.pure_def,
    Option.some.injEq, Prod.mk.injEq] at h
  obtain ⟨e1', h1, af, h2, s', h3, rfl, rfl⟩ := h
  exact ⟨h1, af, h2, h3⟩

theorem edgeIsBoundary_probe (d : Dcel) (p : Pt) (e : ℕ)
    (h : edgeIsBoundary d p e = true) :
    ∃ e1, walkProbe d p e = some (e1, false) := by
  unfold edgeIsBoundary at h
  cases hp : walkProbe d p e with
  | none => rw [hp] at h; simp at h
  | some pr =>
    obtain ⟨e1, s⟩ := pr
    rw [hp] at h
    cases s with
    | false => exact ⟨e1, rfl⟩
    | true => simp at h

theorem findBoundary_isSome (d : Dcel) (p : Pt) :
    ∀ vis, existsBoundary d p vis = true → (findBoundary d p vis).isSome = true := by
  intro vis
  induction vis with
  | nil => intro h; simp [existsBoundary] at h
  | cons f rest ih =>
    intro h
    unfold findBoundary
    cases hb : boundaryEdgeOfFace d p f with
    | some e => simp
    | none =>
      apply ih
      unfold existsBoundary at h
      simp only [List.any_cons, Bool.or_eq_true] at h
      rcases h with h | h
      · rw [hb] at h; simp at h
      · exact h

theorem findBoundary_spec (d : Dcel) (p : Pt) :
    ∀ vis e0, findBoundary d p vis = some e0 →
      edgeIsBoundary d p e0 = true ∧
      ∃ f ∈ vis, ∃ a b c, faceHalfEdges d f = some (a, b, c) ∧
        (e0 = a ∨ e0 = b ∨ e0 = c) := by
  intro vis
  induction vis with
  | nil => intro e0 h; simp [findBoundary] at h
  | cons f rest ih =>
    intro e0 h
    unfold findBoundary at h
    cases hb : boundaryEdgeOfFace d p f with
    | some e =>
      rw [hb] at h
      simp only [Option.some.injEq] at h
      subst h
      unfold boundaryEdgeOfFace at hb
      cases hf : faceHalfEdges d f with
      | none => rw [hf] at hb; simp at hb
      | some tri =>
        obtain ⟨a, b, c⟩ := tri
        rw [hf] at hb
        have hpred := List.find?_some hb
        have hmem := List.mem_of_find?_eq_some hb
        refine ⟨hpred, f, List.mem_cons_self f rest, a, b, c, hf, ?_⟩
        simpa using hmem
    | none =>
      rw [hb] at h
      obtain ⟨hp, f', hf', hspec⟩ := ih e0 h
      exact ⟨hp, f', List.mem_cons_of_mem _ hf', hspec⟩

/-- A horizon entry borders the visible region correctly: the incident
face of the recorded half-edge is not seen by the point, while its
twin's incident face is seen. -/
def GoodEdge (d : Dcel) (p : Pt) (e1 : ℕ) : Prop :=
  ((d.getFace e1).bind fun f => see d f p) = some false ∧
  ((d.getTwin e1).bind fun e0 => (d.getFace e0).bind fun f => see d f p) = some true

theorem horizonWalk_good (d : Dcel) (p : Pt) (first : ℕ)
    (htw : ∀ e e1, d.getTwin e = some e1 → d.getTwin e1 = some e)
    (hnx : ∀ e e1, d.getNext e = some e1 → d.getFace e1 = d.getFace e) :
    ∀ (fuel e0 : ℕ) (horizon hv : List ℕ) (res : List ℕ × List ℕ),
      horizonWalk d p first fuel e0 horizon hv = some res →
      (∀ e1 ∈ horizon, GoodEdge d p e1) →
      (∃ f0, d.getFace e0 = some f0 ∧ see d f0 p = some true) →
      ∀ e1 ∈ res.1, GoodEdge d p e1 := by
  intro fuel
  induction fuel with
  | zero =>
    intro e0 horizon hv res h _ _
    simp [horizonWalk] at h
  | succ n ih =>
    intro e0 horizon hv res h hok hcur
    unfold horizonWalk at h
    split at h
    · exact absurd h (by simp)
    · next e1 hp =>
      obtain ⟨ht, af, haf, hsee⟩ := walkProbe_spec d p e0 e1 true hp
      split at h
      · next e0' hn =>
        split at h
        · next hf =>
          cases h
          exact hok
        · next hf =>
          exact ih e0' horizon hv res h hok ⟨af, (hnx e1 e0' hn).trans haf, hsee⟩
      · exact absurd h (by simp)
    · next e1 hp =>
      obtain ⟨ht, af, haf, hsee⟩ := walkProbe_spec d p e0 e1 false hp
      split at h
      · next fv e0' hfv hn =>
        obtain ⟨f0, hf0, hseef0⟩ := hcur
        have hgood : GoodEdge d p e1 := by
          unfold GoodEdge
          constructor
          · rw [haf]
            simpa using hsee
          · rw [htw e0 e1 ht]
            simp only [Option.some_bind]
            rw [hf0]
            simpa using hseef0
        have hok' : ∀ x ∈ horizon ++ [e1], GoodEdge d p x := by
          intro x hx
          rcases List.mem_append.mp hx with hx | hx
          · exact hok x hx
          · rw [List.mem_singleton.mp hx]
            exact hgood
        split at h
        · next hf =>
          cases h
          exact hok'
        · next hf =>
          exact ih e0' _ _ res h hok'
            ⟨f0, (hnx e0 e0' hn).trans hf0, hseef0⟩
      · next hcatch =>
        exact absurd h (by simp)



theorem visEdge_spec (d : Dcel) (p : Pt) (e : ℕ) (h : visEdge d p e = true) :
    ∃ f, d.getFace e = some f ∧ see d f p = some true := by
  unfold visEdge at h
  have h' := of_decide_eq_true h
  cases hf : d.getFace e with
  | none => rw [hf] at h'; simp at h'
  | some f =>
    rw [hf] at h'
    simp only [Option.some_bind] at h'
    exact ⟨f, rfl, h'⟩

theorem visEdge_intro (d : Dcel) (p : Pt) (e f : ℕ)
    (h1 : d.getFace e = some f) (h2 : see d f p = some true) :
    visEdge d p e = true := by
  unfold visEdge
  apply decide_eq_true
  rw [h1]
  simp only [Option.some_bind]
  exact h2

theorem visEdge_lt (d : Dcel) (p : Pt) (e : ℕ) (h : visEdge d p e = true) :
    e < d.halfEdges.length := by
  obtain ⟨f, hf, _⟩ := visEdge_spec d p e h
  unfold Dcel.getFace at hf
  exact bind_he_lt d e _ _ hf

theorem of_nextInjective (d : Dcel) (h : nextInjective d = true) :
    ∀ e e2 x, d.getNext e = some x → d.getNext e2 = some x → e = e2 := by
  intro e e2 x h1 h2
  have hlt : e < d.halfEdges.length := by
    unfold Dcel.getNext at h1
    exact bind_he_lt d e _ _ h1
  have hlt2 : e2 < d.halfEdges.length := by
    unfold Dcel.getNext at h2
    exact bind_he_lt d e2 _ _ h2
  have hall := List.all_eq_true.mp h e (List.mem_range.mpr hlt)
  have hall2 := List.all_eq_true.mp hall e2 (List.mem_range.mpr hlt2)
  simp only [h1, h2] at hall2
  exact of_decide_eq_true hall2 (by trivial)

theorem of_seenEdgesTotal (d : Dcel) (p : Pt) (h : seenEdgesTotal d p = true) :
    ∀ e, visEdge d p e = true →
      (walkProbe d p e).isSome = true ∧ (d.getNext e).isSome = true ∧
        (d.getFromVertex e).isSome = true := by
  intro e he
  have hall := List.all_eq_true.mp h e (List.mem_range.mpr (visEdge_lt d p e he))
  rw [if_pos he] at hall
  simp only [Bool.and_eq_true] at hall
  exact ⟨hall.1.1, hall.1.2, hall.2⟩

theorem walkStep_eq_cross (d : Dcel) (p : Pt) (e e1 : ℕ)
    (hp : walkProbe d p e = some (e1, true)) :
    walkStep d p e = d.getNext e1 := by
  unfold walkStep
  rw [hp]

theorem walkStep_eq_record (d : Dcel) (p : Pt) (e e1 : ℕ)
    (hp : walkProbe d p e = some (e1, false)) :
    walkStep d p e = d.getNext e := by
  unfold walkStep
  rw [hp]

theorem walkStep_closed (d : Dcel) (p : Pt)
    (hnx : nextSameFace d = true) (htot : seenEdgesTotal d p = true) :
    ∀ e, visEdge d p e = true →
      ∃ x, walkStep d p e = some x ∧ visEdge d p x = true := by
  intro e he
  obtain ⟨hprobe, hnexte, _⟩ := of_seenEdgesTotal d p htot e he
  obtain ⟨pr, hp⟩ := Option.isSome_iff_exists.mp hprobe
  obtain ⟨e1, s⟩ := pr
  obtain ⟨ht, af, haf, hsee⟩ := walkProbe_spec d p e e1 s hp
  cases s with
  | true =>
    have he1 : visEdge d p e1 = true := visEdge_intro d p e1 af haf hsee
    obtain ⟨_, hnext1, _⟩ := of_seenEdgesTotal d p htot e1 he1
    obtain ⟨x, hx⟩ := Option.isSome_iff_exists.mp hnext1
    refine ⟨x, ?_, ?_⟩
    · rw [walkStep_eq_cross d p e e1 hp]
      exact hx
    · have hfx := of_nextSameFace d hnx e1 x hx
      rw [haf] at hfx
      exact visEdge_intro d p x af hfx hsee
  | false =>
    obtain ⟨x, hx⟩ := Option.isSome_iff_exists.mp hnexte
    obtain ⟨f, hf, hseef⟩ := visEdge_spec d p e he
    refine ⟨x, ?_, ?_⟩
    · rw [walkStep_eq_record d p e e1 hp]
      exact hx
    · have hfx := of_nextSameFace d hnx e x hx
      rw [hf] at hfx
      exact visEdge_intro d p x f hfx hseef

theorem walkStep_injOn (d : Dcel) (p : Pt)
    (htw : twinSymmetric d = true) (hninj : nextInjective d = true) :
    ∀ e e2 x, visEdge d p e = true → visEdge d p e2 = true →
      walkStep d p e = some x → walkStep d p e2 = some x → e = e2 := by
  intro e e2 x he he2 h1 h2
  have htw' := of_twinSymmetric d htw
  have hninj' := of_nextInjective d hninj
  unfold walkStep at h1 h2
  split at h1
  · next e1 hp1 =>
    split at h2
    · next e1b hp2 =>
      have heq : e1 = e1b := hninj' e1 e1b x h1 h2
      subst heq
      obtain ⟨ht1, _, _, _⟩ := walkProbe_spec d p e e1 true hp1
      obtain ⟨ht2, _, _, _⟩ := walkProbe_spec d p e2 e1 true hp2
      have hb1 := htw' e e1 ht1
      have hb2 := htw' e2 e1 ht2
      rw [hb1] at hb2
      exact Option.some_inj.mp hb2
    · next e1b hp2 =>
      have heq : e1 = e2 := hninj' e1 e2 x h1 h2
      subst heq
      obtain ⟨ht1, af1, haf1, hsee1⟩ := walkProbe_spec d p e e1 true hp1
      obtain ⟨ht2, af2, haf2, hsee2⟩ := walkProbe_spec d p e1 e1b false hp2
      have hb := htw' e e1 ht1
      rw [ht2] at hb
      have he1b : e1b = e := Option.some_inj.mp hb
      rw [he1b] at haf2
      obtain ⟨f, hf, hsf⟩ := visEdge_spec d p e he
      rw [hf] at haf2
      have haff : f = af2 := Option.some_inj.mp haf2
      subst haff
      rw [hsf] at hsee2
      simp at hsee2
    · exact absurd h2 (by simp)
  · next e1 hp1 =>
    split at h2
    · next e1b hp2 =>
      have heq : e1b = e := hninj' e1b e x h2 h1
      subst heq
      obtain ⟨ht2, af2, haf2, hsee2⟩ := walkProbe_spec d p e2 e1b true hp2
      obtain ⟨ht1, af1, haf1, hsee1⟩ := walkProbe_spec d p e1b e1 false hp1
      have hb := htw' e2 e1b ht2
      rw [ht1] at hb
      have he12 : e1 = e2 := Option.some_inj.mp hb
      rw [he12] at haf1
      obtain ⟨f, hf, hsf⟩ := visEdge_spec d p e2 he2
      rw [hf] at haf1
      have haff : f = af1 := Option.some_inj.mp haf1
      subst haff
      rw [hsf] at hsee1
      simp at hsee1
    · next e1b hp2 =>
      exact hninj' e e2 x h1 h2
    · exact absurd h2 (by simp)
  · exact absurd h1 (by simp)

theorem walkIter_closed (d : Dcel) (p : Pt)
    (hstep : ∀ e, visEdge d p e = true →
      ∃ x, walkStep d p e = some x ∧ visEdge d p x = true) :
    ∀ n e, visEdge d p e = true →
      ∃ x, walkIter d p e n = some x ∧ visEdge d p x = true := by
  intro n
  induction n with
  | zero => intro e he; exact ⟨e, rfl, he⟩
  | succ k ih =>
    intro e he
    obtain ⟨y, hy, hyv⟩ := ih e he
    obtain ⟨x, hx, hxv⟩ := hstep y hyv
    refine ⟨x, ?_, hxv⟩
    show (walkIter d p e k).bind (walkStep d p) = some x
    rw [hy]
    simp only [Option.some_bind]
    exact hx

theorem walkIter_shift (d : Dcel) (p : Pt) (e : ℕ) :
    ∀ n, walkIter d p e (n + 1) = (walkStep d p e).bind fun x => walkIter d p x n := by
  intro n
  induction n with
  | zero =>
    show (walkIter d p e 0).bind (walkStep d p) = _
    have hfn : (fun x => walkIter d p x 0) = (some : ℕ → Option ℕ) := rfl
    rw [hfn, Option.bind_some]
    rfl
  | succ k ih =>
    have h2 : walkIter d p e (k + 1 + 1) = (walkIter d p e (k + 1)).bind (walkStep d p) := rfl
    rw [h2, ih, Option.bind_assoc]
    rfl

theorem walkIter_add (d : Dcel) (p : Pt) (e : ℕ) :
    ∀ a b, walkIter d p e (a + b) = (walkIter d p e b).bind fun x => walkIter d p x a := by
  intro a
  induction a with
  | zero =>
    intro b
    rw [Nat.zero_add]
    have hfn : (fun x => walkIter d p x 0) = (some : ℕ → Option ℕ) := rfl
    rw [hfn, Option.bind_some]
  | succ k ih =>
    intro b
    have h1 : k + 1 + b = (k + b) + 1 := by omega
    rw [h1]
    have h2 : walkIter d p e ((k + b) + 1) = (walkIter d p e (k + b)).bind (walkStep d p) := rfl
    rw [h2, ih b, Option.bind_assoc]
    rfl

theorem walkIter_leftCancel (d : Dcel) (p : Pt)
    (hstep : ∀ e, visEdge d p e = true →
      ∃ x, walkStep d p e = some x ∧ visEdge d p x = true)
    (hinj : ∀ e e2 x, visEdge d p e = true → visEdge d p e2 = true →
      walkStep d p e = some x → walkStep d p e2 = some x → e = e2) :
    ∀ i x y, visEdge d p x = true → visEdge d p y = true →
      walkIter d p x i = walkIter d p y i → x = y := by
  intro i
  induction i with
  | zero => intro x y _ _ h; exact Option.some_inj.mp h
  | succ k ih =>
    intro x y hx hy h
    rw [walkIter_shift, walkIter_shift] at h
    obtain ⟨a, ha, hav⟩ := hstep x hx
    obtain ⟨b, hb, hbv⟩ := hstep y hy
    rw [ha, hb] at h
    simp only [Option.some_bind] at h
    have hab : a = b := ih a b hav hbv h
    subst hab
    exact hinj x y a hx hy ha hb

theorem walkIter_cycle (d : Dcel) (p : Pt)
    (hstep : ∀ e, visEdge d p e = true →
      ∃ x, walkStep d p e = some x ∧ visEdge d p x = true)
    (hinj : ∀ e e2 x, visEdge d p e = true → visEdge d p e2 = true →
      walkStep d p e = some x → walkStep d p e2 = some x → e = e2)
    (first : ℕ) (hf : visEdge d p first = true) :
    ∃ m, 1 ≤ m ∧ walkIter d p first m = some first := by
  classical
  have hiter : ∀ i, ∃ x, walkIter d p first i = some x ∧ visEdge d p x = true :=
    fun i => walkIter_closed d p hstep i first hf
  choose F hF hFv using hiter
  have key : ∀ i j, i < j → F i = F j →
      ∃ m, 1 ≤ m ∧ walkIter d p first m = some first := by
    intro i j hij hFeq
    have heqiter : walkIter d p first i = walkIter d p first j := by
      rw [hF i, hF j, hFeq]
    have hcomp : walkIter d p first j =
        (walkIter d p first (j - i)).bind fun x => walkIter d p x i := by
      rw [← walkIter_add]
      congr 1
      omega
    obtain ⟨c, hc, hcv⟩ := walkIter_closed d p hstep (j - i) first hf
    rw [hc] at hcomp
    simp only [Option.some_bind] at hcomp
    rw [hcomp] at heqiter
    have hfc : first = c := walkIter_leftCancel d p hstep hinj i first c hf hcv heqiter
    refine ⟨j - i, by omega, ?_⟩
    rw [hc, ← hfc]
  set V : Finset ℕ :=
    (Finset.range d.halfEdges.length).filter (fun e => visEdge d p e = true) with hV
  have hmaps : ∀ i ∈ Finset.range (V.card + 1), F i ∈ V := by
    intro i _
    rw [hV]
    exact Finset.mem_filter.mpr
      ⟨Finset.mem_range.mpr (visEdge_lt d p (F i) (hFv i)), hFv i⟩
  have hcard : V.card < (Finset.range (V.card + 1)).card := by
    rw [Finset.card_range]
    omega
  obtain ⟨i, _, j, _, hne, heq⟩ :=
    Finset.exists_ne_map_eq_of_card_lt_of_maps_to hcard hmaps
  rcases Nat.lt_or_ge i j with hij | hij
  · exact key i j hij heq
  · have hji : j < i := by omega
    exact key j i hji heq.symm

theorem horizonWalk_cross_eq (d : Dcel) (p : Pt) (first fuel e0 : ℕ)
    (horizon hv : List ℕ) (e1 e0' : ℕ)
    (hp : walkProbe d p e0 = some (e1, true)) (hn : d.getNext e1 = some e0') :
    horizonWalk d p first (fuel + 1) e0 horizon hv =
      if e0' = first then some (horizon, hv)
      else horizonWalk d p first fuel e0' horizon hv := by
  show (match walkProbe d p e0 with
    | none => none
    | some (e1, true) =>
      match d.getNext e1 with
      | some e0' =>
        if e0' = first then some (horizon, hv)
        else horizonWalk d p first fuel e0' horizon hv
      | none => none
    | some (e1, false) =>
      match d.getFromVertex e0, d.getNext e0 with
      | some fv, some e0' =>
        if e0' = first then some (horizon ++ [e1], insertNat fv hv)
        else horizonWalk d p first fuel e0' (horizon ++ [e1]) (insertNat fv hv)
      | _, _ => none) = _
  rw [hp]
  show (match d.getNext e1 with
    | some e0' =>
      if e0' = first then some (horizon, hv)
      else horizonWalk d p first fuel e0' horizon hv
    | none => none) = _
  rw [hn]

theorem horizonWalk_record_eq (d : Dcel) (p : Pt) (first fuel e0 : ℕ)
    (horizon hv : List ℕ) (e1 fv e0' : ℕ)
    (hp : walkProbe d p e0 = some (e1, false))
    (hfv : d.getFromVertex e0 = some fv) (hn : d.getNext e0 = some e0') :
    horizonWalk d p first (fuel + 1) e0 horizon hv =
      if e0' = first then some (horizon ++ [e1], insertNat fv hv)
      else horizonWalk d p first fuel e0' (horizon ++ [e1]) (insertNat fv hv) := by
  show (match walkProbe d p e0 with
    | none => none
    | some (e1, true) =>
      match d.getNext e1 with
      | some e0' =>
        if e0' = first then some (horizon, hv)
        else horizonWalk d p first fuel e0' horizon hv
      | none => none
    | some (e1, false) =>
      match d.getFromVertex e0, d.getNext e0 with
      | some fv, some e0' =>
        if e0' = first then some (horizon ++ [e1], insertNat fv hv)
        else horizonWalk d p first fuel e0' (horizon ++ [e1]) (insertNat fv hv)
      | _, _ => none) = _
  rw [hp]
  show (match d.getFromVertex e0, d.getNext e0 with
    | some fv, some e0' =>
      if e0' = first then some (horizon ++ [e1], insertNat fv hv)
      else horizonWalk d p first fuel e0' (horizon ++ [e1]) (insertNat fv hv)
    | _, _ => none) = _
  rw [hfv, hn]

theorem horizonWalk_reaches (d : Dcel) (p : Pt) (first : ℕ)
    (htot : seenEdgesTotal d p = true)
    (hstep : ∀ e, visEdge d p e = true →
      ∃ x, walkStep d p e = some x ∧ visEdge d p x = true) :
    ∀ m e0 horizon hv, visEdge d p e0 = true → 1 ≤ m →
      walkIter d p e0 m = some first →
      ∀ fuel, m ≤ fuel →
        ∃ res, horizonWalk d p first fuel e0 horizon hv = some res := by
  intro m
  induction m with
  | zero =>
    intro e0 horizon hv _ h1
    exact absurd h1 (by omega)
  | succ k ih =>
    intro e0 horizon hv hvis0 _ hreach fuel hfuel
    obtain ⟨f, rfl⟩ : ∃ f, fuel = f + 1 := ⟨fuel - 1, by omega⟩
    obtain ⟨hprobe, hnexte, hfrom⟩ := of_seenEdgesTotal d p htot e0 hvis0
    obtain ⟨pr, hp⟩ := Option.isSome_iff_exists.mp hprobe
    obtain ⟨e1, s⟩ := pr
    rw [walkIter_shift] at hreach
    have hvisa : ∀ a, walkStep d p e0 = some a → visEdge d p a = true := by
      intro a ha
      obtain ⟨x, hx, hxv⟩ := hstep e0 hvis0
      rw [ha] at hx
      rw [Option.some_inj.mp hx]
      exact hxv
    cases s with
    | true =>
      have hstepeq := walkStep_eq_cross d p e0 e1 hp
      rw [hstepeq] at hreach
      cases hn : d.getNext e1 with
      | none => rw [hn] at hreach; simp at hreach
      | some a =>
        rw [hn] at hreach
        simp only [Option.some_bind] at hreach
        rw [horizonWalk_cross_eq d p first f e0 horizon hv e1 a hp hn]
        by_cases haf : a = first
        · rw [if_pos haf]
          exact ⟨(horizon, hv), rfl⟩
        · rw [if_neg haf]
          have hk : 1 ≤ k := by
            rcases Nat.eq_zero_or_pos k with rfl | h
            · exact absurd (Option.some_inj.mp hreach) haf
            · exact h
          have hav : visEdge d p a = true := by
            apply hvisa
            rw [hstepeq, hn]
          exact ih a horizon hv hav hk hreach f (by omega)
    | false =>
      have hstepeq := walkStep_eq_record d p e0 e1 hp
      rw [hstepeq] at hreach
      obtain ⟨fv, hfv⟩ := Option.isSome_iff_exists.mp hfrom
      cases hn : d.getNext e0 with
      | none => rw [hn] at hreach; simp at hreach
      | some a =>
        rw [hn] at hreach
        simp only [Option.some_bind] at hreach
        rw [horizonWalk_record_eq d p first f e0 horizon hv e1 fv a hp hfv hn]
        by_cases haf : a = first
        · rw [if_pos haf]
          exact ⟨(horizon ++ [e1], insertNat fv hv), rfl⟩
        · rw [if_neg haf]
          have hk : 1 ≤ k := by
            rcases Nat.eq_zero_or_pos k with rfl | h
            · exact absurd (Option.some_inj.mp hreach) haf
            · exact h
          have hav : visEdge d p a = true := by
            apply hvisa
            rw [hstepeq, hn]
          exact ih a (horizon ++ [e1]) (insertNat fv hv) hav hk hreach f (by omega)

/-- C5: on a mesh whose twin references are symmetric, whose `next` is
injective and stays within the incident face, whose faces' outer
half-edges are consistent, and whose seen half-edges all dereference
successfully — the configuration of a hull that remains topologically a
sphere — given a visible-face set whose members are all actually seen
by the point and on whose border some half-edge with an invisible twin
face exists: the boundary search of `horizonEdgeList` succeeds before
exhausting the visible faces (the assertion in the search loop never
fires); the boundary walk returns to the starting half-edge (there is a
fuel for which the walk completes, and by construction it completes
exactly by reaching the starting half-edge again — proved by showing
the walk's successor function is injective on the half-edges with seen
faces, hence permutes them, so the orbit of the starting edge is a
cycle); and every half-edge recorded in the horizon list borders
exactly one visible and one invisible face: its own incident face is
not seen by the point and its twin's incident face is seen. -/
theorem horizonEdgeList_succeeds_and_borders
    (d : Dcel) (p : Pt) (vis : List ℕ)
    (htw : twinSymmetric d = true) (hnx : nextSameFace d = true)
    (hout : outerFaceConsistent d = true)
    (hninj : nextInjective d = true)
    (htot : seenEdgesTotal d p = true)
    (hvis : ∀ f ∈ vis, see d f p = some true)
    (hex : existsBoundary d p vis = true) :
    (findBoundary d p vis).isSome = true ∧
    (∃ fuel horizon hv, horizonEdgeList d vis p fuel = some (horizon, hv)) ∧
    (∀ fuel horizon hv, horizonEdgeList d vis p fuel = some (horizon, hv) →
      ∀ e1 ∈ horizon, GoodEdge d p e1) := by
  have htw' := of_twinSymmetric d htw
  have hnx' := of_nextSameFace d hnx
  have hout' := of_outerFaceConsistent d hout
  have hstep := walkStep_closed d p hnx htot
  have hinj := walkStep_injOn d p htw hninj
  refine ⟨findBoundary_isSome d p vis hex, ?_, ?_⟩
  · obtain ⟨first, hfb⟩ :=
      Option.isSome_iff_exists.mp (findBoundary_isSome d p vis hex)
    obtain ⟨hbnd, fb, hfvis, a, b, c, htri, hmem⟩ :=
      findBoundary_spec d p vis first hfb
    have hface : d.getFace first = some fb := by
      obtain ⟨hfa, hfb2, hfc⟩ := faceHalfEdges_face d hnx' hout' fb a b c htri
      rcases hmem with rfl | rfl | rfl
      · exact hfa
      · exact hfb2
      · exact hfc
    have hvfirst : visEdge d p first = true :=
      visEdge_intro d p first fb hface (hvis fb hfvis)
    obtain ⟨e1x, hprobe⟩ := edgeIsBoundary_probe d p first hbnd
    obtain ⟨_, hnexts, hfroms⟩ := of_seenEdgesTotal d p htot first hvfirst
    obtain ⟨fv, hfv⟩ := Option.isSome_iff_exists.mp hfroms
    obtain ⟨e0s, hn⟩ := Option.isSome_iff_exists.mp hnexts
    obtain ⟨ht, af, haf, hseeaf⟩ := walkProbe_spec d p first e1x false hprobe
    obtain ⟨m, hm1, hcyc⟩ := walkIter_cycle d p hstep hinj first hvfirst
    have hsteq : walkStep d p first = some e0s := by
      rw [walkStep_eq_record d p first e1x hprobe]
      exact hn
    obtain ⟨k, rfl⟩ : ∃ k, m = k + 1 := ⟨m - 1, by omega⟩
    rw [walkIter_shift, hsteq] at hcyc
    simp only [Option.some_bind] at hcyc
    have hvis0 : visEdge d p e0s = true := by
      obtain ⟨x, hx, hxv⟩ := hstep first hvfirst
      rw [hsteq] at hx
      rw [← Option.some_inj.mp hx] at hxv
      exact hxv
    have hreach : ∃ k2, 1 ≤ k2 ∧ walkIter d p e0s k2 = some first := by
      rcases Nat.eq_zero_or_pos k with rfl | hk
      · have hef : e0s = first := Option.some_inj.mp hcyc
        subst hef
        refine ⟨1, le_refl 1, ?_⟩
        show (Option.some e0s).bind (walkStep d p) = some e0s
        simp only [Option.some_bind]
        exact hsteq
      · exact ⟨k, hk, hcyc⟩
    obtain ⟨k2, hk2, hreach2⟩ := hreach
    obtain ⟨res, hwalk⟩ := horizonWalk_reaches d p first htot hstep k2 e0s
      [e1x] [fv] hvis0 hk2 hreach2 k2 (le_refl k2)
    refine ⟨k2, res.1, res.2, ?_⟩
    unfold horizonEdgeList
    simp only [Option.bind_eq_bind, hfb, Option.some_bind, ht, hfv, hn]
    exact hwalk
  · intro fuel horizon hv h e1m hm
    unfold horizonEdgeList at h
    simp only [Option.bind_eq_bind, Option.bind_eq_some] at h
    obtain ⟨e0, hfb, e1, ht, fv, hfv, e0', hn, hwalk⟩ := h
    obtain ⟨hbnd, fb, hfvis, a, b, c, htri, hmem⟩ := findBoundary_spec d p vis e0 hfb
    obtain ⟨e1y, hprobe⟩ := edgeIsBoundary_probe d p e0 hbnd
    obtain ⟨htx, af, haf, hseeaf⟩ := walkProbe_spec d p e0 e1y false hprobe
    have he1 : e1 = e1y := by
      rw [ht] at htx
      exact Option.some_inj.mp htx
    subst he1
    have hface : d.getFace e0 = some fb := by
      obtain ⟨hfa, hfb2, hfc⟩ := faceHalfEdges_face d hnx' hout' fb a b c htri
      rcases hmem with rfl | rfl | rfl
      · exact hfa
      · exact hfb2
      · exact hfc
    have hseef : see d fb p = some true := hvis fb hfvis
    have hgood : GoodEdge d p e1 := by
      constructor
      · rw [haf]
        simpa using hseeaf
      · rw [htw' e0 e1 ht]
        simp only [Option.some_bind]
        rw [hface]
        simpa using hseef
    have hok : ∀ x ∈ [e1], GoodEdge d p x := by
      intro x hx
      rw [List.mem_singleton.mp hx]
      exact hgood
    exact horizonWalk_good d p e0 htw' hnx' fuel e0' [e1] [fv] (horizon, hv)
      hwalk hok ⟨fb, (hnx' e0 e0' hn).trans hface, hseef⟩ e1m hm

/-- Witness for C5: the horizon theorem applied to the C6 scenario's
initial tetrahedron, the point `(1,1,-3)` and the visible set
containing exactly the face it sees. -/
theorem horizonEdgeList_succeeds_and_borders_witness :
    (twinSymmetric c5Mesh = true ∧ nextSameFace c5Mesh = true ∧
      outerFaceConsistent c5Mesh = true ∧ nextInjective c5Mesh = true ∧
      seenEdgesTotal c5Mesh c6p4 = true ∧
      (∀ f ∈ [0], see c5Mesh f c6p4 = some true) ∧
      existsBoundary c5Mesh c6p4 [0] = true) ∧
    ((findBoundary c5Mesh c6p4 [0]).isSome = true ∧
      (∃ fuel horizon hv, horizonEdgeList c5Mesh [0] c6p4 fuel = some (horizon, hv)) ∧
      (∀ fuel horizon hv, horizonEdgeList c5Mesh [0] c6p4 fuel = some (horizon, hv) →
        ∀ e1 ∈ horizon, GoodEdge c5Mesh c6p4 e1)) :=
  ⟨⟨by decide, by decide, by decide, by decide, by decide, by decide, by decide⟩,
    horizonEdgeList_succeeds_and_borders c5Mesh c6p4 [0]
      (by decide) (by decide) (by decide) (by decide) (by decide)
      (by decide) (by decide)⟩
